import Mathlib

/-!
Shallow embedding of the teyeler image tiler (src/teyeler.py) and proofs
about it.  Rasters are modelled as flat C-order buffers of integer pixel
values with an optional trailing channel axis; numpy views are modelled as
offset descriptors that read through a raster buffer; the worker pool is
modelled by its queue accounting (unfinished-task counter).
-/

deriving instance DecidableEq for Except

namespace Teyeler

/-- Enum of the corner of the tilemap, i.e. where the (0, 0) coordinate is.
Mirrors class Corner in src/teyeler.py. -/
inductive Corner where
  | SouthWest
  | NorthWest
  | SouthEast
  | NorthEast
deriving DecidableEq

/-- Enum of the coordinate order of the tilemap.  Mirrors class Order in
src/teyeler.py: ColMajor emits (c, r), RowMajor emits (r, c). -/
inductive Order where
  | ColMajor
  | RowMajor
deriving DecidableEq

/-- A raster image: rows x cols spatial extent, an optional trailing channel
axis (none models a 2-D numpy array, some ch a 3-D array with ch channels),
and the pixel data as a flat C-order buffer, exactly as numpy stores it. -/
structure Raster where
  rows : ℕ
  cols : ℕ
  channels : Option ℕ
  data : List ℤ
deriving DecidableEq

/-- Length of one pixel in the flat buffer: the product of the trailing
(channel) dimensions, 1 for a 2-D raster (np.prod of an empty shape). -/
def Raster.pxlen (img : Raster) : ℕ := img.channels.getD 1

/-- Read a single scalar from the flat buffer (0 when out of range, which
never happens for in-range reads of well-formed rasters). -/
def Raster.flat (img : Raster) (idx : ℕ) : ℤ := img.data.getD idx 0

/-- Read pixel channel k at spatial position (r, c). -/
def Raster.px (img : Raster) (r c k : ℕ) : ℤ :=
  img.flat ((r * img.cols + c) * img.pxlen + k)

/-- Ceiling division on naturals; the embedding of math.ceil(s / t). -/
def ceildiv (s t : ℕ) : ℕ := (s + t - 1) / t

/-- Read a segment of a flat buffer: flat[src : src + n]. -/
def getSeg (l : List ℤ) (src n : ℕ) : List ℤ := (l.drop src).take n

/-- Write a segment into a flat buffer: flat[dst : dst + seg.length] = seg. -/
def setSeg (l : List ℤ) (dst : ℕ) (seg : List ℤ) : List ℤ :=
  l.take dst ++ seg ++ l.drop (dst + seg.length)

/-- The row-relocation loop of pad (src/teyeler.py lines 283-287): for each
old row, from the last to the first, move its pixels from the old flat
position to the new flat position.  Each step reads the source segment from
the current buffer, exactly like the numpy slice assignment. -/
def padCopy (oldRows oldCols newCols top left pxl : ℕ) (flat : List ℤ) : List ℤ :=
  (List.range oldRows).reverse.foldl
    (fun fl row =>
      let oldIdx := row * oldCols
      let newIdx := (row + top) * newCols + left
      setSeg fl (newIdx * pxl) (getSeg fl (oldIdx * pxl) (oldCols * pxl)))
    flat

/-- Embedding of pad (src/teyeler.py lines 234-289).  Pads img to shape by
expanding the array from the given corner; raises ValueError when the target
shape is smaller than the current shape.  The in-place numpy resize is
modelled by extending the flat buffer with zeros; the border-fill chained
assignment img[:top], img[bottom:], img[:, :left], img[:, right:] = fill is
modelled by the final index map.  fill models the scalar broadcast of the
default zero pixel. -/
def pad (corner : Corner) (shape : ℕ × ℕ) (img : Raster) (fill : ℤ := 0) :
    Except String Raster :=
  if img.rows > shape.1 ∨ img.cols > shape.2 then
    .error "Target shape is smaller than the shape of the image."
  else
    let pxl := img.pxlen
    let marv := shape.1 - img.rows
    let marh := shape.2 - img.cols
    let tb := if corner = .SouthWest ∨ corner = .SouthEast then (marv, 0) else (0, marv)
    let top := tb.1
    let bottomIdx := shape.1 - tb.2 - 1
    let lr := if corner = .NorthEast ∨ corner = .SouthEast then (marh, 0) else (0, marh)
    let left := lr.1
    let rightIdx := shape.2 - lr.2 - 1
    let total := shape.1 * shape.2 * pxl
    let resized := img.data.take total ++ List.replicate (total - img.data.length) 0
    let copied := padCopy img.rows img.cols shape.2 top left pxl resized
    let filled := (List.range total).map (fun idx =>
      let r := idx / (shape.2 * pxl)
      let c := (idx % (shape.2 * pxl)) / pxl
      if r < top ∨ bottomIdx ≤ r ∨ c < left ∨ rightIdx ≤ c then fill
      else copied.getD idx 0)
    .ok { rows := shape.1, cols := shape.2, channels := img.channels, data := filled }

/-- Embedding of tilecoordinates (src/teyeler.py lines 291-321): translate a
tile coordinate given in image coordinates (row, col), origin at the
north-west corner, to the basis selected by order and corner. -/
def tilecoordinates (order : Order) (corner : Corner) (shape : ℕ × ℕ)
    (coordinates : ℕ × ℕ) : ℕ × ℕ :=
  let rows := shape.1
  let cols := shape.2
  let row := coordinates.1
  let col := coordinates.2
  let col := if corner = .SouthEast ∨ corner = .NorthEast then cols - col - 1 else col
  let row := if corner = .SouthWest ∨ corner = .SouthEast then rows - row - 1 else row
  if order = .ColMajor then (col, row) else (row, col)

/-- Inverse of tilecoordinates for a fixed order, corner and grid shape:
undo the axis-order swap, then undo the reflections. -/
def tilecoordinatesInv (order : Order) (corner : Corner) (shape : ℕ × ℕ)
    (mm : ℕ × ℕ) : ℕ × ℕ :=
  let rows := shape.1
  let cols := shape.2
  let rc := if order = .ColMajor then (mm.2, mm.1) else mm
  let row := rc.1
  let col := rc.2
  let col := if corner = .SouthEast ∨ corner = .NorthEast then cols - col - 1 else col
  let row := if corner = .SouthWest ∨ corner = .SouthEast then rows - row - 1 else row
  (row, col)

/-- A numpy view into a raster, as produced by the tile-slicing expression
img[h*row : h*(row+1), w*col : w*(col+1)] in gettiles: spatial offsets, the
view extent, and the stride data captured when the view was created.  The
view holds no pixel data of its own; it reads through a raster buffer. -/
structure TileView where
  r0 : ℕ
  c0 : ℕ
  h : ℕ
  w : ℕ
  stride : ℕ
  pxl : ℕ
deriving DecidableEq

/-- Read channel k of the view pixel (i, j) through the buffer of base.
Mutating the raster the view was cut from changes what the view reads. -/
def TileView.read (v : TileView) (base : Raster) (i j k : ℕ) : ℤ :=
  base.flat (((v.r0 + i) * v.stride + (v.c0 + j)) * v.pxl + k)

/-- Whether spatial pixel (i, j) of the base raster lies inside the view. -/
def TileView.contains (v : TileView) (i j : ℕ) : Bool :=
  v.r0 ≤ i && i < v.r0 + v.h && v.c0 ≤ j && j < v.c0 + v.w

/-- Embedding of gettiles (src/teyeler.py lines 323-372).  If the spatial
shape is not divisible by the tile shape, the image is first padded in place
to the next multiples; the function then yields one view per grid cell in
row-major scan order together with its basis-converted coordinates.  The
(possibly padded) working raster is returned alongside the yielded views,
standing for the in-place mutation of the caller's array. -/
def gettiles (tile_shape : ℕ × ℕ) (img : Raster)
    (corner : Corner := .SouthWest) (order : Order := .ColMajor) :
    Except String (Raster × List (TileView × (ℕ × ℕ))) := do
  let img ←
    if img.rows % tile_shape.1 = 0 ∧ img.cols % tile_shape.2 = 0 then pure img
    else
      pad corner
        (tile_shape.1 * ceildiv img.rows tile_shape.1,
         tile_shape.2 * ceildiv img.cols tile_shape.2) img
  let rows := img.rows / tile_shape.1
  let cols := img.cols / tile_shape.2
  pure (img, (List.range rows).flatMap (fun row => (List.range cols).map (fun col =>
    ({ r0 := tile_shape.1 * row, c0 := tile_shape.2 * col,
       h := tile_shape.1, w := tile_shape.2,
       stride := img.cols, pxl := img.pxlen },
     tilecoordinates order corner (rows, cols) (row, col)))))

/-- Spatial output dimension of the external zoom collaborator for factor
0.5: int(round(s * 0.5)) with round-half-to-even. -/
def zoomDim (s : ℕ) : ℕ :=
  if s % 2 = 0 then s / 2 else if (s / 2) % 2 = 0 then s / 2 else s / 2 + 1

/-- Embedding of zoom (src/teyeler.py lines 214-232), which calls the
external scipy.ndimage.interpolation.zoom with the fixed factor tuple
(0.5, 0.5, 1) and order=0.  The collaborator requires the factor sequence
length to equal the input rank, so a 2-D raster (no channel axis) raises a
runtime error; on a 3-D raster it halves each spatial dimension (with
round-half-to-even on odd sizes), leaves the channel axis untouched, and
fills the output by nearest-neighbour decimation. -/
def zoom (img : Raster) : Except String Raster :=
  match img.channels with
  | none => .error "sequence argument must have length equal to input rank"
  | some ch =>
    let r2 := zoomDim img.rows
    let c2 := zoomDim img.cols
    .ok { rows := r2, cols := c2, channels := some ch,
          data := (List.range (r2 * c2 * ch)).map (fun idx =>
            let i := idx / (c2 * ch)
            let j := (idx % (c2 * ch)) / ch
            let k := idx % ch
            img.px (2 * i) (2 * j) k) }

/-- The automatic level count of tile (src/teyeler.py lines 401-405):
1 + max over the spatial axes of ceil(log2(dim / tileDim)).  Int.clog 2 q
is exactly the ceiling of the base-2 logarithm of a positive rational. -/
def nlevelsAuto (tile_shape : ℕ × ℕ) (img : Raster) : ℤ :=
  1 + max (Int.clog 2 ((img.rows : ℚ) / (tile_shape.1 : ℚ)))
          (Int.clog 2 ((img.cols : ℚ) / (tile_shape.2 : ℚ)))

/-- The level sequence reversed(range(nlevels)): highest level first; empty
when nlevels is not positive. -/
def levelsOf (n : ℤ) : List ℤ :=
  ((List.range n.toNat).reverse).map (fun k => (k : ℤ))

/-- One record yielded by tile: the tile view together with the raster it
was cut from (a numpy view references its base array), the basis-converted
major and minor indices, and the zoom level. -/
structure TileRecord where
  base : Raster
  view : TileView
  major : ℕ
  minor : ℕ
  level : ℤ
deriving DecidableEq

/-- The level loop of tile (src/teyeler.py lines 406-410): for each level,
highest first, emit the tiles of the current raster, then, when the level is
not yet 0, replace the raster by its 2x downsample. -/
def tileLevels (tile_shape : ℕ × ℕ) : List ℤ → Raster → Except String (List TileRecord)
  | [], _ => .ok []
  | level :: rest, img => do
    let pr ← gettiles tile_shape img
    let recs := pr.2.map (fun vc =>
      { base := pr.1, view := vc.1, major := vc.2.1, minor := vc.2.2,
        level := level : TileRecord })
    let img2 ← if level > 0 then zoom pr.1 else pure pr.1
    let more ← tileLevels tile_shape rest img2
    pure (recs ++ more)

/-- Embedding of tile (src/teyeler.py lines 374-410): tile the image over
the zoom levels, computing the level count automatically when nlevels is
not given. -/
def tile (tile_shape : ℕ × ℕ) (img : Raster) (nlevels : Option ℤ := none) :
    Except String (List TileRecord) :=
  tileLevels tile_shape (levelsOf (nlevels.getD (nlevelsAuto tile_shape img))) img

/-- State of the Threader's queue accounting (src/teyeler.py lines 129-211):
the FIFO list of still-queued jobs and the unfinished-task counter that
queue.Queue maintains (incremented by put, decremented by task_done).  A job
is modelled by whether executing it raises. -/
structure ThreaderQueue where
  pending : List Bool
  unfinished : ℕ
deriving DecidableEq

/-- Threader.add for a whole batch: each put enqueues the job and increments
the unfinished-task count. -/
def submitAll (jobs : List Bool) : ThreaderQueue :=
  { pending := jobs, unfinished := jobs.length }

/-- One worker consuming the queue, the event loop of Threader._worker
(src/teyeler.py lines 204-211): pop a job, execute it, mark it done with
task_done.  A job that raises propagates the exception out of the loop,
killing the worker before task_done is called, so the popped job is never
marked done and the rest of the queue is left unconsumed.  Returns the
remaining queue contents and the final unfinished-task count. -/
def workerSteps : List Bool → ℕ → (List Bool × ℕ)
  | [], u => ([], u)
  | raises :: rest, u => if raises then (rest, u) else workerSteps rest (u - 1)

/-- Run one worker until it blocks on the empty queue or dies. -/
def workerRun (q : ThreaderQueue) : ThreaderQueue :=
  { pending := (workerSteps q.pending q.unfinished).1,
    unfinished := (workerSteps q.pending q.unfinished).2 }

/-- Threader.await is queue.join(): it returns exactly when the
unfinished-task count has reached zero. -/
def awaitReturns (q : ThreaderQueue) : Prop := q.unfinished = 0

/-- A corner is east-anchored when the origin lies on the east edge.
Vocabulary of the specification of the coordinate basis. -/
def eastAnchored (corner : Corner) : Prop :=
  corner = .SouthEast ∨ corner = .NorthEast

/-- A corner is south-anchored when the origin lies on the south edge. -/
def southAnchored (corner : Corner) : Prop :=
  corner = .SouthWest ∨ corner = .SouthEast

instance (corner : Corner) : Decidable (eastAnchored corner) := by
  unfold eastAnchored; infer_instance

instance (corner : Corner) : Decidable (southAnchored corner) := by
  unfold southAnchored; infer_instance

/-- The coordinate-basis conversion exactly as the specification words it:
reflect the column index when the corner is east-anchored, reflect the row
index when the corner is south-anchored, then emit (col, row) for
column-major order and (row, col) otherwise.  Stated separately from
tilecoordinates so the code can be compared against the spec. -/
def toBasisSpec (order : Order) (corner : Corner) (shape : ℕ × ℕ)
    (rc : ℕ × ℕ) : ℕ × ℕ :=
  let colR := if eastAnchored corner then shape.2 - rc.2 - 1 else rc.2
  let rowR := if southAnchored corner then shape.1 - rc.1 - 1 else rc.1
  if order = .ColMajor then (colR, rowR) else (rowR, colR)

/-- A 5 x 5 single-channel raster with pixel values 1..25 in row-major
order, the raster of the specification's padding example. -/
def img5 : Raster :=
  { rows := 5, cols := 5, channels := none,
    data := (List.range 25).map (fun i => (i : ℤ) + 1) }

/-- A 2 x 2 single-channel raster with pixel values 1..4. -/
def img22 : Raster := { rows := 2, cols := 2, channels := none, data := [1, 2, 3, 4] }

/-- The view yielded by gettiles (2, 2) on img22: the whole raster. -/
def v22 : TileView := { r0 := 0, c0 := 0, h := 2, w := 2, stride := 2, pxl := 1 }

/-- A 4 x 4 single-channel raster with pixel values 1..16. -/
def img44 : Raster :=
  { rows := 4, cols := 4, channels := none,
    data := (List.range 16).map (fun i => (i : ℤ) + 1) }

/-- A 2 x 2 single-channel raster, strictly smaller than a 4 x 4 tile. -/
def r22 : Raster := { rows := 2, cols := 2, channels := none, data := [0, 0, 0, 0] }

/-- An 8 x 8 raster without a channel axis (a 2-D numpy array). -/
def r88 : Raster :=
  { rows := 8, cols := 8, channels := none,
    data := (List.range 64).map (fun i => (i : ℤ)) }

/-- An 8 x 8 raster with 3 channels. -/
def r883 : Raster :=
  { rows := 8, cols := 8, channels := some 3,
    data := (List.range 192).map (fun i => (i : ℤ)) }

/-! Helper lemmas shared by the claim theorems. -/

theorem int_clog_two_pow (z : ℤ) : Int.clog 2 ((2 : ℚ) ^ z) = z := by
  have h2 : ((2 : ℕ) : ℚ) = (2 : ℚ) := by norm_num
  rw [← h2, Int.clog_zpow (by norm_num)]

theorem int_clog_half : Int.clog 2 ((1 : ℚ) / 2) = -1 := by
  have h : ((1 : ℚ) / 2) = (2 : ℚ) ^ (-1 : ℤ) := by norm_num
  rw [h, int_clog_two_pow]

theorem nat_clog_two_four : Nat.clog 2 4 = 2 := by
  rw [show (4 : ℕ) = 2 ^ 2 by norm_num, Nat.clog_pow _ _ (by norm_num)]

theorem nlevelsAuto_r883 : nlevelsAuto (2, 2) r883 = 3 := by
  simp only [nlevelsAuto, r883]
  norm_num [nat_clog_two_four]

theorem nlevelsAuto_r88 : nlevelsAuto (2, 2) r88 = 3 := by
  simp only [nlevelsAuto, r88]
  norm_num [nat_clog_two_four]

theorem nlevelsAuto_r22 : nlevelsAuto (4, 4) r22 = 0 := by
  simp only [nlevelsAuto, r22]
  norm_num [int_clog_half]

theorem length_flatMap_range {α : Type} (n m : ℕ) (f : ℕ → ℕ → α) :
    ((List.range n).flatMap (fun r => (List.range m).map (f r))).length = n * m := by
  simp [List.length_flatMap, Function.comp_def, List.map_const', List.sum_replicate,
    smul_eq_mul]

theorem le_mul_ceildiv (s t : ℕ) (ht : 0 < t) : s ≤ t * ceildiv s t := by
  unfold ceildiv
  have h := Nat.div_add_mod (s + t - 1) t
  have h2 : (s + t - 1) % t < t := Nat.mod_lt _ ht
  generalize t * ((s + t - 1) / t) = x at h ⊢
  omega

theorem mul_ceildiv_of_mod_eq_zero {s t : ℕ} (ht : 0 < t) (h : s % t = 0) :
    t * ceildiv s t = s := by
  obtain ⟨q, rfl⟩ := Nat.dvd_of_mod_eq_zero h
  unfold ceildiv
  rw [Nat.add_sub_assoc (by omega : 1 ≤ t), Nat.mul_add_div ht,
    Nat.div_eq_of_lt (by omega), Nat.add_zero]

theorem pad_shape (corner : Corner) (shape : ℕ × ℕ) (img : Raster) (fill : ℤ)
    (h1 : img.rows ≤ shape.1) (h2 : img.cols ≤ shape.2) :
    ∃ r, pad corner shape img fill = .ok r ∧ r.rows = shape.1 ∧ r.cols = shape.2 ∧
      r.channels = img.channels := by
  simp only [pad]
  rw [if_neg (by omega)]
  exact ⟨_, rfl, rfl, rfl, rfl⟩

theorem gettiles_general (t1 t2 : ℕ) (corner : Corner) (order : Order) (img : Raster)
    (ht1 : 0 < t1) (ht2 : 0 < t2) :
    ∃ pimg ts, gettiles (t1, t2) img corner order = .ok (pimg, ts) ∧
      pimg.rows = t1 * ceildiv img.rows t1 ∧ pimg.cols = t2 * ceildiv img.cols t2 ∧
      ts.length = (pimg.rows / t1) * (pimg.cols / t2) := by
  by_cases hdiv : img.rows % t1 = 0 ∧ img.cols % t2 = 0
  · have hg : gettiles (t1, t2) img corner order =
        .ok (img, (List.range (img.rows / t1)).flatMap (fun row =>
          (List.range (img.cols / t2)).map (fun col =>
            ({ r0 := t1 * row, c0 := t2 * col, h := t1, w := t2,
               stride := img.cols, pxl := img.pxlen },
             tilecoordinates order corner (img.rows / t1, img.cols / t2) (row, col))))) := by
      simp only [gettiles]
      rw [if_pos (by simpa using hdiv)]
      rfl
    refine ⟨img, _, hg, (mul_ceildiv_of_mod_eq_zero ht1 hdiv.1).symm,
      (mul_ceildiv_of_mod_eq_zero ht2 hdiv.2).symm, length_flatMap_range _ _ _⟩
  · obtain ⟨pimg, hpad, hrw, hcl, -⟩ :=
      pad_shape corner (t1 * ceildiv img.rows t1, t2 * ceildiv img.cols t2) img 0
        (le_mul_ceildiv _ _ ht1) (le_mul_ceildiv _ _ ht2)
    have hg : gettiles (t1, t2) img corner order =
        .ok (pimg, (List.range (pimg.rows / t1)).flatMap (fun row =>
          (List.range (pimg.cols / t2)).map (fun col =>
            ({ r0 := t1 * row, c0 := t2 * col, h := t1, w := t2,
               stride := pimg.cols, pxl := pimg.pxlen },
             tilecoordinates order corner (pimg.rows / t1, pimg.cols / t2) (row, col))))) := by
      simp only [gettiles]
      rw [if_neg (by simpa using hdiv), hpad]
      rfl
    refine ⟨pimg, _, hg, by omega, by omega, length_flatMap_range _ _ _⟩

theorem tile_r883_unfold : tile (2, 2) r883 none = tileLevels (2, 2) [2, 1, 0] r883 := by
  unfold tile
  rw [Option.getD_none, nlevelsAuto_r883]
  have h : levelsOf 3 = [2, 1, 0] := by decide
  rw [h]

theorem tile_r88_unfold : tile (2, 2) r88 none = tileLevels (2, 2) [2, 1, 0] r88 := by
  unfold tile
  rw [Option.getD_none, nlevelsAuto_r88]
  have h : levelsOf 3 = [2, 1, 0] := by decide
  rw [h]

/-! The claim theorems. -/

/-- C1: the claim says a submitted job that raises is still counted complete
and drain (await) returns with the failure retrievable.  In the code a
raising job kills its worker before task_done, so with one worker and a
single raising job the unfinished-task count stays at 1 forever and
Threader.await (queue.join) never returns, while with only non-raising jobs
the count drains to 0.  There is also no structure in Threader that records
a failure for the caller. -/
theorem threader_raising_job_never_marked_complete :
    ¬ awaitReturns (workerRun (submitAll [true])) ∧
    (workerRun (submitAll [true])).unfinished = 1 ∧
    awaitReturns (workerRun (submitAll [false, false, false])) := by
  refine ⟨?_, by decide, ?_⟩
  · show ¬ (workerRun (submitAll [true])).unfinished = 0
    decide
  · show (workerRun (submitAll [false, false, false])).unfinished = 0
    decide

/-- C2: the claim says padding a 5 x 5 raster to 8 x 8 anchored SouthWest
preserves every original pixel at rows 3..7, cols 0..4.  The code relocates
the content there but then its border fill slices img[bottom:, :] and
img[:, right:] are off by one and overwrite the last content row and column:
result (7, 0) and (3, 4) hold the fill value 0 instead of the original
pixels 21 and 5, while (3, 0) keeps the original pixel 1.  The InvalidShape
half of the claim does hold: padding 5 x 5 to 3 x 3 raises ValueError. -/
theorem pad_southwest_loses_last_row_and_column :
    (pad .SouthWest (8, 8) img5).map
      (fun r => (r.px 7 0 0, r.px 7 4 0, r.px 3 4 0, r.px 3 0 0)) = .ok (0, 0, 0, 1) ∧
    img5.px 4 0 0 = 21 ∧ img5.px 4 4 0 = 25 ∧ img5.px 0 4 0 = 5 ∧ img5.px 0 0 0 = 1 ∧
    pad .SouthWest (3, 3) img5 =
      .error "Target shape is smaller than the shape of the image." := by decide

/-- C3: the claim says every tile yielded by gettiles is an independently
owned copy, so later mutation of the working raster cannot change its
pixels.  The code yields numpy views: gettiles (2, 2) on the 2 x 2 raster
img22 yields the view v22 over the whole raster, whose pixel (0, 0) reads 1;
after the producer pads the same raster in place to 4 x 4 the very same view
reads 0 at (0, 0) because it aliases the mutated buffer. -/
theorem gettiles_tile_is_view_not_copy :
    (gettiles (2, 2) img22).map (fun pr => (pr.1, pr.2.map (fun vc => vc.1))) =
      .ok (img22, [v22]) ∧
    v22.read img22 0 0 0 = 1 ∧
    (pad .SouthWest (4, 4) img22).map (fun p => v22.read p 0 0 0) = .ok 0 := by decide

/-- C4 counterexample: for a 2 x 2 raster and 4 x 4 tiles the code computes
the automatic level count 1 + ceil(log2(2 / 4)) = 0, which is not at least 1
and is not the least level count L at least 1 whose single coarsest tile
contains the image (that least value is 1), so the claim as stated is false
at this input. -/
theorem nlevelsAuto_small_raster_not_least :
    nlevelsAuto (4, 4) r22 = 0 ∧
    ¬ IsLeast {L : ℤ | 1 ≤ L ∧ ((r22.rows : ℚ) ≤ (4 : ℚ) * 2 ^ (L - 1)) ∧
        ((r22.cols : ℚ) ≤ (4 : ℚ) * 2 ^ (L - 1))} (nlevelsAuto (4, 4) r22) := by
  refine ⟨nlevelsAuto_r22, ?_⟩
  rw [nlevelsAuto_r22]
  rintro ⟨⟨h1, -⟩, -⟩
  norm_num at h1

/-- C4 (amended): for positive tile and raster dimensions, whenever at least
one spatial dimension is no smaller than its tile dimension, the automatic
level count 1 + max ceil(log2(dim / tileDim)) computed by tile is the least
level count L with L ≥ 1 such that the whole image fits one tile after
L - 1 exact halvings on both spatial axes.  (The formula itself is the
definition of nlevelsAuto; without this hypothesis the least-fitting
characterisation can fail, as the 2 x 2 raster with 4 x 4 tiles of the
counterexample shows, where the computed count is 0.) -/
theorem nlevelsAuto_least_fitting (t1 t2 : ℕ) (img : Raster)
    (ht1 : 0 < t1) (ht2 : 0 < t2) (hrows : 0 < img.rows) (hcols : 0 < img.cols)
    (hbig : t1 ≤ img.rows ∨ t2 ≤ img.cols) :
    IsLeast {L : ℤ | 1 ≤ L ∧ ((img.rows : ℚ) ≤ (t1 : ℚ) * 2 ^ (L - 1)) ∧
        ((img.cols : ℚ) ≤ (t2 : ℚ) * 2 ^ (L - 1))} (nlevelsAuto (t1, t2) img) := by
  have hcast : ((2 : ℕ) : ℚ) = (2 : ℚ) := by norm_num
  have ht1q : (0 : ℚ) < (t1 : ℚ) := by exact_mod_cast ht1
  have ht2q : (0 : ℚ) < (t2 : ℚ) := by exact_mod_cast ht2
  have hrq : (0 : ℚ) < (img.rows : ℚ) / (t1 : ℚ) := div_pos (by exact_mod_cast hrows) ht1q
  have hcq : (0 : ℚ) < (img.cols : ℚ) / (t2 : ℚ) := div_pos (by exact_mod_cast hcols) ht2q
  set c1 := Int.clog 2 ((img.rows : ℚ) / (t1 : ℚ)) with hc1
  set c2 := Int.clog 2 ((img.cols : ℚ) / (t2 : ℚ)) with hc2
  have hn : nlevelsAuto (t1, t2) img = 1 + max c1 c2 := rfl
  have hself1 : (img.rows : ℚ) / (t1 : ℚ) ≤ (2 : ℚ) ^ c1 := by
    have h := Int.self_le_zpow_clog (b := 2) (by norm_num) ((img.rows : ℚ) / (t1 : ℚ))
    rwa [hcast] at h
  have hself2 : (img.cols : ℚ) / (t2 : ℚ) ≤ (2 : ℚ) ^ c2 := by
    have h := Int.self_le_zpow_clog (b := 2) (by norm_num) ((img.cols : ℚ) / (t2 : ℚ))
    rwa [hcast] at h
  have hmono : ∀ x y : ℤ, x ≤ y → (2 : ℚ) ^ x ≤ (2 : ℚ) ^ y := fun x y h =>
    zpow_le_zpow_right₀ (by norm_num) h
  constructor
  · rw [Set.mem_setOf_eq, hn]
    have h0 : 0 ≤ max c1 c2 := by
      rcases hbig with h | h
      · have h1q : (1 : ℚ) ≤ (img.rows : ℚ) / (t1 : ℚ) :=
          (one_le_div ht1q).mpr (by exact_mod_cast h)
        have hcnn : (0 : ℤ) ≤ c1 := by
          rw [hc1, Int.clog_of_one_le_right _ h1q]
          positivity
        exact le_trans hcnn (le_max_left _ _)
      · have h1q : (1 : ℚ) ≤ (img.cols : ℚ) / (t2 : ℚ) :=
          (one_le_div ht2q).mpr (by exact_mod_cast h)
        have hcnn : (0 : ℤ) ≤ c2 := by
          rw [hc2, Int.clog_of_one_le_right _ h1q]
          positivity
        exact le_trans hcnn (le_max_right _ _)
    refine ⟨by omega, ?_, ?_⟩
    · have h := le_trans hself1 (hmono _ _ (le_max_left c1 c2))
      rw [div_le_iff₀ ht1q] at h
      have h2 : (img.rows : ℚ) ≤ (t1 : ℚ) * (2 : ℚ) ^ (max c1 c2) := by linarith
      simpa [add_sub_cancel_left] using h2
    · have h := le_trans hself2 (hmono _ _ (le_max_right c1 c2))
      rw [div_le_iff₀ ht2q] at h
      have h2 : (img.cols : ℚ) ≤ (t2 : ℚ) * (2 : ℚ) ^ (max c1 c2) := by linarith
      simpa [add_sub_cancel_left] using h2
  · rintro L ⟨hL1, hLr, hLc⟩
    rw [hn]
    have k1 : c1 ≤ L - 1 := by
      rw [hc1]
      refine (Int.le_zpow_iff_clog_le (by norm_num) hrq).mp ?_
      rw [hcast, div_le_iff₀ ht1q]
      linarith
    have k2 : c2 ≤ L - 1 := by
      rw [hc2]
      refine (Int.le_zpow_iff_clog_le (by norm_num) hcq).mp ?_
      rw [hcast, div_le_iff₀ ht2q]
      linarith
    have hm : max c1 c2 ≤ L - 1 := max_le k1 k2
    omega

/-- Witness for the amended C4 theorem at tile shape 2 x 2 and the 8 x 8
raster r88: the computed count 3 is the least fitting level count. -/
theorem nlevelsAuto_least_fitting_witness :
    (0 : ℕ) < 2 ∧ 0 < r88.rows ∧ 0 < r88.cols ∧ (2 ≤ r88.rows ∨ 2 ≤ r88.cols) ∧
    IsLeast {L : ℤ | 1 ≤ L ∧ ((r88.rows : ℚ) ≤ ((2 : ℕ) : ℚ) * 2 ^ (L - 1)) ∧
        ((r88.cols : ℚ) ≤ ((2 : ℕ) : ℚ) * 2 ^ (L - 1))} (nlevelsAuto (2, 2) r88) :=
  ⟨by decide, by decide, by decide, Or.inl (by decide),
    nlevelsAuto_least_fitting 2 2 r88 (by decide) (by decide) (by decide) (by decide)
      (Or.inl (by decide))⟩

/-- C5 counterexample: on a literal 8 x 8 raster with no channel axis the
walk does not produce three levels: the first downsample passes the 3-factor
tuple to the external zoom, which rejects a rank-2 input, so the pipeline
raises instead of yielding levels 1 and 0. -/
theorem walk_2d_88_raises_instead_of_three_levels :
    tile (2, 2) r88 none =
      .error "sequence argument must have length equal to input rank" := by
  rw [tile_r88_unfold]
  decide

set_option maxRecDepth 8000 in
/-- C5 (amended): with tile shape (2, 2) on an 8 x 8 raster carrying a
trailing channel axis (here 3 channels) and automatic level count, the walk
yields exactly levels 2, 1, 0 in that order with 16, 4 and 1 tiles, every
tile view 2 x 2; level-2 records are cut from the full raster, level-1
records from its 2x downsample of shape (4, 4, 3), and level-0 records from
the twice-downsampled raster of shape (2, 2, 3); a raster without the
channel axis instead raises at the first downsample. -/
theorem walk_levels_883 :
    (tile (2, 2) r883 none).map (fun recs => recs.map (fun rec => rec.level)) =
      .ok (List.replicate 16 2 ++ List.replicate 4 1 ++ [0]) ∧
    (tile (2, 2) r883 none).map (fun recs => recs.all (fun rec =>
      rec.view.h == 2 && rec.view.w == 2)) = .ok true ∧
    (tile (2, 2) r883 none).map (fun recs => recs.all (fun rec =>
      (rec.level != 2) || (rec.base == r883))) = .ok true ∧
    (tile (2, 2) r883 none).map (fun recs => recs.all (fun rec =>
      (rec.level != 1) || (Except.ok rec.base == zoom r883))) = .ok true ∧
    (tile (2, 2) r883 none).map (fun recs => recs.all (fun rec =>
      (rec.level != 0) || (Except.ok rec.base == (zoom r883).bind zoom))) = .ok true ∧
    (zoom r883).map (fun z => (z.rows, z.cols, z.channels)) = .ok (4, 4, some 3) ∧
    ((zoom r883).bind zoom).map (fun z => (z.rows, z.cols, z.channels)) =
      .ok (2, 2, some 3) := by
  rw [tile_r883_unfold]
  decide

/-- C6: gettiles with 2 x 2 tiles on a 4 x 4 raster yields exactly the four
2 x 2 tiles at offsets (0,0), (0,2), (2,0), (2,2), in row-major scan order,
and every raster pixel is covered by exactly one tile; in general, for
positive tile dimensions, gettiles yields a raster padded to the next tile
multiples with exactly (padded rows / tile rows) * (padded cols / tile cols)
tiles. -/
theorem gettiles_count_and_partition :
    (gettiles (2, 2) img44).map (fun pr => (pr.1, pr.2.map (fun vc =>
      ((vc.1.r0, vc.1.c0), vc.1.h, vc.1.w)))) =
      .ok (img44, [((0, 0), 2, 2), ((0, 2), 2, 2), ((2, 0), 2, 2), ((2, 2), 2, 2)]) ∧
    (gettiles (2, 2) img44).map (fun pr => (List.range 4).all (fun i =>
      (List.range 4).all (fun j =>
        pr.2.countP (fun vc => vc.1.contains i j) == 1))) = .ok true ∧
    ∀ t1 t2 : ℕ, ∀ corner : Corner, ∀ order : Order, ∀ img : Raster,
      0 < t1 → 0 < t2 →
      ∃ pimg ts, gettiles (t1, t2) img corner order = .ok (pimg, ts) ∧
        pimg.rows = t1 * ceildiv img.rows t1 ∧ pimg.cols = t2 * ceildiv img.cols t2 ∧
        ts.length = (pimg.rows / t1) * (pimg.cols / t2) :=
  ⟨by decide, by decide, fun t1 t2 corner order img ht1 ht2 =>
    gettiles_general t1 t2 corner order img ht1 ht2⟩

/-- Witness for C6 at tile shape 3 x 2 on the 5 x 5 raster img5, which is
padded to 6 x 6 and cut into 6 tiles. -/
theorem gettiles_count_and_partition_witness :
    (0 : ℕ) < 3 ∧ (0 : ℕ) < 2 ∧
    ∃ pimg ts, gettiles (3, 2) img5 .NorthWest .RowMajor = .ok (pimg, ts) ∧
      pimg.rows = 3 * ceildiv img5.rows 3 ∧ pimg.cols = 2 * ceildiv img5.cols 2 ∧
      ts.length = (pimg.rows / 3) * (pimg.cols / 2) :=
  ⟨by decide, by decide,
    gettiles_count_and_partition.2.2 3 2 .NorthWest .RowMajor img5 (by decide) (by decide)⟩

/-- C7: for every order, corner, grid shape and in-range canonical
coordinate, the inverse basis conversion undoes tilecoordinates exactly, so
for each fixed order, corner and grid shape the conversion is a bijection on
the grid range. -/
theorem tilecoordinates_roundtrip (order : Order) (corner : Corner)
    (rows cols row col : ℕ) (hrow : row < rows) (hcol : col < cols) :
    tilecoordinatesInv order corner (rows, cols)
      (tilecoordinates order corner (rows, cols) (row, col)) = (row, col) := by
  cases order <;> cases corner <;>
    simp [tilecoordinates, tilecoordinatesInv] <;> omega

/-- Witness for C7 at order ColMajor, corner SouthEast, grid 3 x 5, index
(1, 2). -/
theorem tilecoordinates_roundtrip_witness :
    1 < 3 ∧ 2 < 5 ∧
    tilecoordinatesInv .ColMajor .SouthEast (3, 5)
      (tilecoordinates .ColMajor .SouthEast (3, 5) (1, 2)) = (1, 2) :=
  ⟨by decide, by decide,
    tilecoordinates_roundtrip .ColMajor .SouthEast 3 5 1 2 (by decide) (by decide)⟩

/-- C8: tilecoordinates implements exactly the specified rule, reflecting
the column for east-anchored corners and the row for south-anchored corners
before the axis-order swap, and is the identity for NorthWest with RowMajor. -/
theorem tilecoordinates_matches_spec (order : Order) (corner : Corner)
    (rows cols row col : ℕ) (hrow : row < rows) (hcol : col < cols) :
    tilecoordinates order corner (rows, cols) (row, col) =
      toBasisSpec order corner (rows, cols) (row, col) ∧
    tilecoordinates .RowMajor .NorthWest (rows, cols) (row, col) = (row, col) := by
  constructor
  · cases order <;> cases corner <;> rfl
  · simp [tilecoordinates]

/-- Witness for C8 at order ColMajor, corner SouthWest, grid 4 x 6, index
(2, 1). -/
theorem tilecoordinates_matches_spec_witness :
    2 < 4 ∧ 1 < 6 ∧
    (tilecoordinates .ColMajor .SouthWest (4, 6) (2, 1) =
      toBasisSpec .ColMajor .SouthWest (4, 6) (2, 1) ∧
     tilecoordinates .RowMajor .NorthWest (4, 6) (2, 1) = (2, 1)) :=
  ⟨by decide, by decide,
    tilecoordinates_matches_spec .ColMajor .SouthWest 4 6 2 1 (by decide) (by decide)⟩

/-- C9: zoom on any raster of shape (4, 4, 3) returns a raster of shape
(2, 2, 3): the spatial dimensions are halved and the channel axis untouched;
and zoom is a pure function, so repeated applications to the same input are
identical. -/
theorem zoom_443_shape_and_deterministic (data : List ℤ) :
    (zoom { rows := 4, cols := 4, channels := some 3, data := data }).map
      (fun r => (r.rows, r.cols, r.channels)) = .ok (2, 2, some 3) ∧
    zoom { rows := 4, cols := 4, channels := some 3, data := data } =
      zoom { rows := 4, cols := 4, channels := some 3, data := data } := by
  constructor
  · simp [zoom, zoomDim, Except.map]
  · rfl

/-- Witness for C9 at a concrete all-zero 4 x 4 x 3 raster. -/
theorem zoom_443_shape_and_deterministic_witness :
    (zoom { rows := 4, cols := 4, channels := some 3,
            data := List.replicate 48 0 }).map
      (fun r => (r.rows, r.cols, r.channels)) = .ok (2, 2, some 3) ∧
    zoom { rows := 4, cols := 4, channels := some 3, data := List.replicate 48 0 } =
      zoom { rows := 4, cols := 4, channels := some 3, data := List.replicate 48 0 } :=
  zoom_443_shape_and_deterministic (List.replicate 48 0)

/-- C10: zoom always passes the 3-element factor tuple (0.5, 0.5, 1) to the
external resampler, so on every 2-D raster (no channel axis) it raises the
rank-mismatch error instead of returning a half-resolution copy. -/
theorem zoom_2d_always_raises (rows cols : ℕ) (data : List ℤ) :
    zoom { rows := rows, cols := cols, channels := none, data := data } =
      .error "sequence argument must have length equal to input rank" := rfl

/-- Witness for C10 at the concrete 2-D raster r88. -/
theorem zoom_2d_always_raises_witness :
    zoom r88 = .error "sequence argument must have length equal to input rank" :=
  zoom_2d_always_raises 8 8 ((List.range 64).map (fun i => (i : ℤ)))

end Teyeler
